import Mathlib

/-!
Verification of the CSS module of a small browser engine.

The definitions below are a shallow embedding of `src/css.rs`, `src/style.rs`
and (for the cascade resolver, which is not present in the source) the design
document's §4.5.  The Rust `Parser` struct (an input string plus a byte
cursor) is modelled by threading an explicit input `List Char` and a `Nat`
position through every parsing function; Rust panics become `Except` errors.
`f32` magnitudes are modelled exactly by `ℚ` (no arithmetic is ever performed
on them in the embedded code).  Loops that are not structurally decreasing in
the source are given an explicit fuel argument; running out of fuel is the
distinguished error `ParseError.fuelOut`, and we prove where needed that
enough fuel exists.
-/

namespace css

/-- `SimpleSelector` from css.rs: tag name, optional id, list of class names. -/
structure SimpleSelector where
  tag_name : Option String
  id : Option String
  «class» : List String
deriving DecidableEq, Repr

/-- `Selector` from css.rs: only simple selectors are supported. -/
inductive Selector where
  | Simple (s : SimpleSelector)
deriving DecidableEq, Repr

/-- `Unit` from css.rs: unit of a length; only `Px` exists. -/
inductive Unit where
  | Px
deriving DecidableEq, Repr

/-- `Color` from css.rs: rgba channels, each a `u8` (modelled as `Nat`,
values produced by the parser are ≤ 255 by construction). -/
structure Color where
  r : Nat
  g : Nat
  b : Nat
  a : Nat
deriving DecidableEq, Repr

/-- `Value` from css.rs. The `f32` magnitude of a length is modelled by `ℚ`. -/
inductive Value where
  | Keyword (s : String)
  | Length (f : ℚ) (u : Unit)
  | ColorValue (c : Color)
deriving DecidableEq, Repr

/-- `Declaration` from css.rs: a name/value pair. -/
structure Declaration where
  name : String
  value : Value
deriving DecidableEq, Repr

/-- `Rule` from css.rs: selectors plus declarations. -/
structure Rule where
  selectors : List Selector
  declarations : List Declaration
deriving DecidableEq, Repr

/-- `Stylesheet` from css.rs: a series of rules. -/
structure Stylesheet where
  rules : List Rule
deriving DecidableEq, Repr

/-- `Specificity` from css.rs: a type alias for the count of (id, class, tag). -/
abbrev Specificity : Type := Nat × Nat × Nat

/-- `Selector::specificity` from css.rs: `id.iter().count()` is the length of
the option viewed as a list, likewise for the tag name, and the class count is
the length of the class list. -/
def Selector.specificity : Selector → Specificity
  | .Simple simple => (simple.id.toList.length, simple.class.length, simple.tag_name.toList.length)

/-- `Value::to_px` from css.rs: the size of a length in px, or zero for
non-lengths. -/
def Value.to_px : Value → ℚ
  | .Length f .Px => f
  | .Keyword _ => 0
  | .ColorValue _ => 0

/-- Parse errors: each constructor corresponds to a panic site of css.rs
(`unwrap` on `next_char` past the end, `expect_char` mismatch, the hex
`unwrap` in `parse_hex_pair`, the `parse_unit` panic, the float `unwrap`,
and the selector-list panic).  `fuelOut` is the embedding's marker for an
exhausted fuel budget; it corresponds to no behaviour of the source. -/
inductive ParseError where
  | outOfBounds
  | unexpectedInput
  | invalidColor
  | unknownUnit
  | malformedNumber
  | unexpectedSelectorChar
  | fuelOut
deriving DecidableEq, Repr

/-- `Parser::eof` from css.rs: all input is consumed. -/
def eof (input : List Char) (pos : Nat) : Bool :=
  decide (pos ≥ input.length)

/-- `Parser::next_char` from css.rs: read the current character without
consuming it; the `unwrap` panics past the end of input. -/
def next_char (input : List Char) (pos : Nat) : Except ParseError Char :=
  match input[pos]? with
  | some c => .ok c
  | none => .error .outOfBounds

/-- `Parser::consume_char` from css.rs: return the current character and
advance the position. -/
def consume_char (input : List Char) (pos : Nat) : Except ParseError (Char × Nat) :=
  match next_char input pos with
  | .ok c => .ok (c, pos + 1)
  | .error e => .error e

/-- `Parser::expect_char` from css.rs: consume one character and panic
(`unexpectedInput`) if it is not the expected one. -/
def expect_char (c : Char) (input : List Char) (pos : Nat) : Except ParseError Nat :=
  match consume_char input pos with
  | .ok (c', pos') => if c' = c then .ok pos' else .error .unexpectedInput
  | .error e => .error e

/-- Loop of `Parser::consume_while`, walking the remaining input while
advancing the position: push the current character while `test` holds and the
end has not been reached. -/
def consume_while_go (test : Char → Bool) : List Char → Nat → List Char × Nat
  | [], pos => ([], pos)
  | c :: rest, pos =>
    if test c then
      match consume_while_go test rest (pos + 1) with
      | (cs, pos') => (c :: cs, pos')
    else ([], pos)

/-- `Parser::consume_while` from css.rs: consume characters until `test`
returns false, returning the consumed run and the new position. -/
def consume_while (test : Char → Bool) (input : List Char) (pos : Nat) : List Char × Nat :=
  consume_while_go test (input.drop pos) pos

/-- `Parser::consume_whitespace` from css.rs. -/
def consume_whitespace (input : List Char) (pos : Nat) : Nat :=
  (consume_while Char.isWhitespace input pos).2

/-- `valid_identifier_char` from css.rs. -/
def valid_identifier_char (c : Char) : Bool :=
  ('a' ≤ c && c ≤ 'z') || ('A' ≤ c && c ≤ 'Z') || ('0' ≤ c && c ≤ '9') || c = '-' || c = '_'

/-- `Parser::parse_identifier` from css.rs: a run of identifier characters. -/
def parse_identifier (input : List Char) (pos : Nat) : String × Nat :=
  let (cs, pos') := consume_while valid_identifier_char input pos
  (String.mk cs, pos')

/-- Rust's `char::to_digit(16)`: the value of a hexadecimal digit, compared
on code points (48-57 are the decimal digits, 97-102 are lowercase a-f,
65-70 are uppercase A-F). -/
def to_digit16 (c : Char) : Option Nat :=
  if 48 ≤ c.toNat ∧ c.toNat ≤ 57 then some (c.toNat - 48)
  else if 97 ≤ c.toNat ∧ c.toNat ≤ 102 then some (c.toNat - 97 + 10)
  else if 65 ≤ c.toNat ∧ c.toNat ≤ 70 then some (c.toNat - 65 + 10)
  else none

/-- Digit loop of Rust's `u8::from_str_radix(s, 16)`: fold hexadecimal digits
with the `u8` overflow check (`checked_mul`/`checked_add` bounded by 255). -/
def hex_digits_u8 : List Char → Nat → Option Nat
  | [], acc => some acc
  | c :: rest, acc =>
    match to_digit16 c with
    | none => none
    | some d => if 16 * acc + d ≤ 255 then hex_digits_u8 rest (16 * acc + d) else none

/-- Rust's `u8::from_str_radix(s, 16)`: an empty string or a lone sign is an
error; a leading `+` is stripped; `-` is not stripped for the unsigned `u8`
(and then fails in the digit loop); the rest is the digit loop. -/
def from_str_radix16_u8 (s : List Char) : Option Nat :=
  match s with
  | [] => none
  | c :: rest =>
    if rest = [] ∧ (c = '+' ∨ c = '-') then none
    else if c = '+' then hex_digits_u8 rest 0
    else hex_digits_u8 (c :: rest) 0

/-- `Parser::parse_hex_pair` from css.rs: slice the next two characters
(panicking with an out-of-bounds read if fewer remain), advance by two, and
convert with `u8::from_str_radix(s, 16).unwrap()` (`invalidColor` on error). -/
def parse_hex_pair (input : List Char) (pos : Nat) : Except ParseError (Nat × Nat) :=
  if pos + 2 ≤ input.length then
    match from_str_radix16_u8 ((input.drop pos).take 2) with
    | some n => .ok (n, pos + 2)
    | none => .error .invalidColor
  else .error .outOfBounds

/-- `Parser::parse_color` from css.rs: `#` then three hex pairs, alpha 255. -/
def parse_color (input : List Char) (pos : Nat) : Except ParseError (Value × Nat) := do
  let pos1 ← expect_char '#' input pos
  let (r, pos2) ← parse_hex_pair input pos1
  let (g, pos3) ← parse_hex_pair input pos2
  let (b, pos4) ← parse_hex_pair input pos3
  .ok (Value.ColorValue ⟨r, g, b, 255⟩, pos4)

/-- `Parser::parse_unit` from css.rs: an identifier, ASCII-lowercased; only
"px" is recognized. -/
def parse_unit (input : List Char) (pos : Nat) : Except ParseError (Unit × Nat) :=
  let (s, pos') := parse_identifier input pos
  if s.toLower = "px" then .ok (.Px, pos') else .error .unknownUnit

/-- All characters of the list are decimal digits. -/
def all_digits (cs : List Char) : Bool :=
  cs.all fun c => '0' ≤ c && c ≤ '9'

/-- Numeric value of a list of decimal digits. -/
def digits_val (cs : List Char) : Nat :=
  cs.foldl (fun a c => 10 * a + (c.toNat - '0'.toNat)) 0

/-- Rust's `str::parse::<f32>()` restricted to the digit/dot alphabet that
`parse_float` can produce: an integer part, optionally a dot and a fractional
part, with at least one digit in total and no second dot; the magnitude is
modelled exactly as a rational. -/
def parse_f32 (cs : List Char) : Option ℚ :=
  let intPart := cs.takeWhile (fun c => c ≠ '.')
  match cs.dropWhile (fun c => c ≠ '.') with
  | [] => if all_digits intPart ∧ intPart ≠ [] then some (digits_val intPart) else none
  | _ :: frac =>
    if all_digits intPart ∧ all_digits frac ∧ (intPart ≠ [] ∨ frac ≠ []) then
      some ((digits_val intPart : ℚ) + (digits_val frac : ℚ) / 10 ^ frac.length)
    else none

/-- `Parser::parse_float` from css.rs: consume digits and dots, then convert
(`malformedNumber` on a failed `unwrap`). -/
def parse_float (input : List Char) (pos : Nat) : Except ParseError (ℚ × Nat) :=
  let (cs, pos') := consume_while (fun c => ('0' ≤ c && c ≤ '9') || c = '.') input pos
  match parse_f32 cs with
  | some q => .ok (q, pos')
  | none => .error .malformedNumber

/-- `Parser::parse_length` from css.rs: a float followed by a unit. -/
def parse_length (input : List Char) (pos : Nat) : Except ParseError (Value × Nat) := do
  let (f, pos1) ← parse_float input pos
  let (u, pos2) ← parse_unit input pos1
  .ok (Value.Length f u, pos2)

/-- `Parser::parse_value` from css.rs: dispatch on the next character — a
digit starts a length, `#` starts a color, anything else is a keyword made of
the following identifier run. -/
def parse_value (input : List Char) (pos : Nat) : Except ParseError (Value × Nat) := do
  let c ← next_char input pos
  if '0' ≤ c ∧ c ≤ '9' then parse_length input pos
  else if c = '#' then parse_color input pos
  else
    let (s, pos') := parse_identifier input pos
    .ok (Value.Keyword s, pos')

/-- `Parser::parse_declaration` from css.rs: identifier, whitespace, `:`,
whitespace, value, whitespace, `;`. -/
def parse_declaration (input : List Char) (pos : Nat) : Except ParseError (Declaration × Nat) := do
  let (name, pos1) := parse_identifier input pos
  let pos2 := consume_whitespace input pos1
  let pos3 ← expect_char ':' input pos2
  let pos4 := consume_whitespace input pos3
  let (value, pos5) ← parse_value input pos4
  let pos6 := consume_whitespace input pos5
  let pos7 ← expect_char ';' input pos6
  .ok (⟨name, value⟩, pos7)

/-- Loop body of `Parser::parse_declarations` from css.rs: skip whitespace;
peek (panicking past the end); on `}` consume it and stop, otherwise parse one
declaration, append it and continue.  Fuel is spent only on iteration. -/
def parse_declarations_loop (input : List Char) (fuel pos : Nat) (acc : List Declaration) :
    Except ParseError (List Declaration × Nat) :=
  let pos1 := consume_whitespace input pos
  match input[pos1]? with
  | none => .error .outOfBounds
  | some c =>
    if c = '}' then .ok (acc, pos1 + 1)
    else
      match parse_declaration input pos1 with
      | .error e => .error e
      | .ok (d, pos2) =>
        match fuel with
        | 0 => .error .fuelOut
        | fuel' + 1 => parse_declarations_loop input fuel' pos2 (acc ++ [d])

/-- `Parser::parse_declarations` from css.rs: a `{`, then the loop. -/
def parse_declarations (input : List Char) (fuel pos : Nat) :
    Except ParseError (List Declaration × Nat) := do
  let pos1 ← expect_char '{' input pos
  parse_declarations_loop input fuel pos1 []

/-- Loop of `Parser::parse_simple_selector` from css.rs: while not at the end
of input, dispatch on the next character — `#` sets the id, `.` appends a
class, `*` is consumed and ignored, an identifier character sets the tag name,
anything else ends the loop. -/
def parse_simple_selector_loop (input : List Char) (fuel pos : Nat) (sel : SimpleSelector) :
    Except ParseError (SimpleSelector × Nat) :=
  match input[pos]? with
  | none => .ok (sel, pos)
  | some c =>
    match fuel with
    | 0 => .error .fuelOut
    | fuel' + 1 =>
      if c = '#' then
        let (s, pos') := parse_identifier input (pos + 1)
        parse_simple_selector_loop input fuel' pos' { sel with id := some s }
      else if c = '.' then
        let (s, pos') := parse_identifier input (pos + 1)
        parse_simple_selector_loop input fuel' pos' { sel with «class» := sel.class ++ [s] }
      else if c = '*' then
        parse_simple_selector_loop input fuel' (pos + 1) sel
      else if valid_identifier_char c then
        let (s, pos') := parse_identifier input pos
        parse_simple_selector_loop input fuel' pos' { sel with tag_name := some s }
      else .ok (sel, pos)

/-- `Parser::parse_simple_selector` from css.rs: the loop started on an empty
selector. -/
def parse_simple_selector (input : List Char) (fuel pos : Nat) :
    Except ParseError (SimpleSelector × Nat) :=
  parse_simple_selector_loop input fuel pos ⟨none, none, []⟩

/-- Insertion step of a stable insertion sort: `x` goes in front of the first
element it compares `le` to. -/
def insertLe {α : Type} (le : α → α → Bool) (x : α) : List α → List α
  | [] => [x]
  | y :: ys => if le x y then x :: y :: ys else y :: insertLe le x ys

/-- Stable insertion sort.  Rust's `sort_by_key` is a stable sort ascending by
key, and a stable sort is uniquely determined by the comparison, so this
insertion sort computes exactly its output. -/
def sortLe {α : Type} (le : α → α → Bool) : List α → List α
  | [] => []
  | x :: xs => insertLe le x (sortLe le xs)

/-- Lexicographic order on specificity triples: Rust's derived `Ord` on the
`(usize, usize, usize)` tuple. -/
def specLe (a b : Specificity) : Prop :=
  a.1 < b.1 ∨ (a.1 = b.1 ∧ (a.2.1 < b.2.1 ∨ (a.2.1 = b.2.1 ∧ a.2.2 ≤ b.2.2)))

instance (a b : Specificity) : Decidable (specLe a b) := by
  unfold specLe
  exact inferInstanceAs (Decidable (_ ∨ _))

/-- Boolean comparison of selectors by specificity, the key order used by
`sort_by_key` in `parse_selectors`. -/
def selLe (a b : Selector) : Bool :=
  decide (specLe a.specificity b.specificity)

/-- Loop of `Parser::parse_selectors` from css.rs: parse one simple selector
and push it, skip whitespace, then dispatch on the next character (panicking
past the end): `,` continues after more whitespace, `{` stops without
consuming, anything else panics. -/
def parse_selectors_loop (input : List Char) (fuel pos : Nat) (acc : List Selector) :
    Except ParseError (List Selector × Nat) :=
  match parse_simple_selector input (input.length + 1) pos with
  | .error e => .error e
  | .ok (sel, pos1) =>
    let acc' := acc ++ [Selector.Simple sel]
    let pos2 := consume_whitespace input pos1
    match input[pos2]? with
    | none => .error .outOfBounds
    | some c =>
      if c = ',' then
        let pos3 := consume_whitespace input (pos2 + 1)
        match fuel with
        | 0 => .error .fuelOut
        | fuel' + 1 => parse_selectors_loop input fuel' pos3 acc'
      else if c = '{' then .ok (acc', pos2)
      else .error .unexpectedSelectorChar

/-- `Parser::parse_selectors` from css.rs: the loop, then a stable sort by
specificity. -/
def parse_selectors (input : List Char) (fuel pos : Nat) :
    Except ParseError (List Selector × Nat) :=
  match parse_selectors_loop input fuel pos [] with
  | .ok (selectors, pos') => .ok (sortLe selLe selectors, pos')
  | .error e => .error e

/-- `Parser::parse_rule` from css.rs: a selector list then a declaration
block. -/
def parse_rule (input : List Char) (fuel pos : Nat) : Except ParseError (Rule × Nat) := do
  let (selectors, pos1) ← parse_selectors input fuel pos
  let (declarations, pos2) ← parse_declarations input fuel pos1
  .ok (⟨selectors, declarations⟩, pos2)

/-- Loop of `Parser::parse_rules` from css.rs: skip whitespace; stop at the
end of input; otherwise parse one rule and push it. -/
def parse_rules_loop (input : List Char) (fuel pos : Nat) (acc : List Rule) :
    Except ParseError (List Rule × Nat) :=
  let pos1 := consume_whitespace input pos
  if eof input pos1 then .ok (acc, pos1)
  else
    match parse_rule input fuel pos1 with
    | .error e => .error e
    | .ok (r, pos2) =>
      match fuel with
      | 0 => .error .fuelOut
      | fuel' + 1 => parse_rules_loop input fuel' pos2 (acc ++ [r])

/-- `parse` from css.rs: parse a whole stylesheet from a fresh parser.  The
fuel budget `length + 1` exceeds the number of iterations any of the loops can
make, since every loop iteration consumes at least one character. -/
def parse (source : String) : Except ParseError Stylesheet :=
  match parse_rules_loop source.toList (source.length + 1) 0 [] with
  | .ok (rules, _) => .ok ⟨rules⟩
  | .error e => .error e

end css

namespace dom

/-- `Element` from dom.rs: a tag name and an attribute map (the `HashMap` is
modelled as an association list with unique keys). -/
structure Element where
  tag_name : String
  attributes : List (String × String)
deriving DecidableEq, Repr

/-- `NodeType` from dom.rs. -/
inductive NodeType where
  | Element (e : dom.Element)
  | Text (s : String)
deriving DecidableEq, Repr

/-- `Node` from dom.rs: a node type plus children. -/
inductive Node where
  | mk (node_type : NodeType) (children : List Node)

end dom

namespace style

open css

/-- `PropertyMap` from style.rs: a `HashMap` from property names to values,
modelled as an association list with unique keys. -/
abbrev PropertyMap := List (String × Value)

/-- `HashMap::get` on a `PropertyMap`: the value stored under the key. -/
def pm_get (m : PropertyMap) (k : String) : Option Value :=
  match m.find? (fun p => p.1 = k) with
  | some p => some p.2
  | none => none

/-- `HashMap::insert` on a `PropertyMap`: replace the binding if the key is
present, otherwise add it. -/
def pm_insert (m : PropertyMap) (k : String) (v : Value) : PropertyMap :=
  match m with
  | [] => [(k, v)]
  | p :: rest => if p.1 = k then (k, v) :: rest else p :: pm_insert rest k v

/-- `StyledNode` from style.rs: a pointer to a DOM node, the node's resolved
property values, and styled children. -/
inductive StyledNode where
  | mk (node : dom.Node) (specified_values : PropertyMap) (children : List StyledNode)

/-- Field accessor for `StyledNode.specified_values`. -/
def StyledNode.specified_values : StyledNode → PropertyMap
  | .mk _ m _ => m

/-- `StyledNode::value` from style.rs: the specified value of a property if it
exists, otherwise `None`. -/
def StyledNode.value (sn : StyledNode) (name : String) : Option Value :=
  pm_get sn.specified_values name

/-- `StyledNode::lookup` from style.rs: the value of `name`, or of
`fallback_name` if that does not exist, or `default` if neither does. -/
def StyledNode.lookup (sn : StyledNode) (name fallback_name : String) (default : Value) : Value :=
  (sn.value name).getD ((sn.value fallback_name).getD default)

/-- Modelled from the spec: the Cascade Resolver of §4.5 is not part of the
source under src/ (style.rs contains only the style-tree data type, `value`,
`lookup` and `display`), so the identity a content node presents to selector
matching — tag name, optional id, class set (§6) — is modelled from the
spec's words. -/
structure NodeIdentity where
  tag : String
  id : Option String
  classes : List String
deriving DecidableEq, Repr

/-- Modelled from the spec: selector matching (§4.5), absent from src/ — a
simple selector matches iff its tag name is absent or equals the node's tag,
its id is absent or equals the node's id, and all its classes are among the
node's classes. -/
def selector_matches (n : NodeIdentity) : Selector → Bool
  | .Simple s =>
    (match s.tag_name with | none => true | some t => t = n.tag) &&
    (match s.id with | none => true | some i => n.id = some i) &&
    s.class.all (fun c => n.classes.contains c)

/-- Modelled from the spec: rule matching (§4.5), absent from src/ — a rule
matches the node if any of its selectors matches. -/
def rule_matches (n : NodeIdentity) (r : Rule) : Bool :=
  r.selectors.any (selector_matches n)

/-- Lexicographically strict version of `specLe`. -/
def specLt (a b : Specificity) : Prop :=
  a.1 < b.1 ∨ (a.1 = b.1 ∧ (a.2.1 < b.2.1 ∨ (a.2.1 = b.2.1 ∧ a.2.2 < b.2.2)))

instance (a b : Specificity) : Decidable (specLt a b) := by
  unfold specLt
  exact inferInstanceAs (Decidable (_ ∨ _))

/-- Modelled from the spec: the priority of a matching rule (§4.5), absent
from src/ — the maximum specificity among the rule's own matching selectors. -/
def matching_specificity (n : NodeIdentity) (r : Rule) : Specificity :=
  ((r.selectors.filter (selector_matches n)).map Selector.specificity).foldl
    (fun acc s => if specLt acc s then s else acc) (0, 0, 0)

/-- Modelled from the spec: cascade ordering (§4.5), absent from src/ —
ascending by priority, ties broken by ascending source order. -/
def cascade_le (n : NodeIdentity) (a b : Nat × Rule) : Bool :=
  decide (specLt (matching_specificity n a.2) (matching_specificity n b.2) ∨
    (matching_specificity n a.2 = matching_specificity n b.2 ∧ a.1 ≤ b.1))

/-- Modelled from the spec: the Cascade Resolver (§4.5), absent from src/ —
collect the matching rules with their source positions, order them ascending
by (priority, source order), and write every declaration into the mapping in
that order, later writes overwriting earlier ones. -/
def specified_values (n : NodeIdentity) (sheet : Stylesheet) : PropertyMap :=
  let matching := sheet.rules.enum.filter (fun p => rule_matches n p.2)
  let ordered := sortLe (cascade_le n) matching
  ordered.foldl
    (fun m p => p.2.declarations.foldl (fun m d => pm_insert m d.name d.value) m) []

end style

/-- C1: for every selector, `specificity` returns the triple
(idCount, classCount, tagCount): idCount is 1 iff an id component is present
(else 0), classCount is exactly the number of `.name` class components stored
in the selector, and tagCount is 1 iff a concrete tag name is set (else 0). -/
theorem C1_specificity (tag id : Option String) (cls : List String) :
    css.Selector.specificity (.Simple ⟨tag, id, cls⟩) =
      ((if id.isSome then 1 else 0), cls.length, (if tag.isSome then 1 else 0)) := by
  cases id <;> cases tag <;> rfl

/-- C10: `to_px` returns the numeric magnitude of a `Length` in `Px` and
returns 0.0 for every other value (every keyword and every color). -/
theorem C10_to_px (f : ℚ) (s : String) (c : css.Color) :
    (css.Value.Length f .Px).to_px = f ∧
    (css.Value.Keyword s).to_px = 0 ∧
    (css.Value.ColorValue c).to_px = 0 :=
  ⟨rfl, rfl, rfl⟩

/-- C2: cascade resolution on a node with tag "p" and class set x, against
the rules p color:red then .x color:blue in that source order, resolves
`color` to the blue keyword (class beats tag); and on a node with id "y" and
class "x", against .x color:blue and the id-selector rule for y color:green in
either source order, resolves `color` to the green keyword (id beats class). -/
theorem C2_cascade_precedence :
    style.pm_get
        (style.specified_values ⟨"p", none, ["x"]⟩
          ⟨[⟨[.Simple ⟨some "p", none, []⟩], [⟨"color", .Keyword "red"⟩]⟩,
            ⟨[.Simple ⟨none, none, ["x"]⟩], [⟨"color", .Keyword "blue"⟩]⟩]⟩) "color" =
      some (.Keyword "blue") ∧
    style.pm_get
        (style.specified_values ⟨"div", some "y", ["x"]⟩
          ⟨[⟨[.Simple ⟨none, none, ["x"]⟩], [⟨"color", .Keyword "blue"⟩]⟩,
            ⟨[.Simple ⟨none, some "y", []⟩], [⟨"color", .Keyword "green"⟩]⟩]⟩) "color" =
      some (.Keyword "green") ∧
    style.pm_get
        (style.specified_values ⟨"div", some "y", ["x"]⟩
          ⟨[⟨[.Simple ⟨none, some "y", []⟩], [⟨"color", .Keyword "green"⟩]⟩,
            ⟨[.Simple ⟨none, none, ["x"]⟩], [⟨"color", .Keyword "blue"⟩]⟩]⟩) "color" =
      some (.Keyword "green") := by
  refine ⟨?_, ?_, ?_⟩ <;> decide

deriving instance DecidableEq for Except

/-- C3: parsing the source "h1, h2, h3 followed by a block with margin auto
and color cc0000" succeeds and yields a stylesheet with exactly one rule,
whose selector list is the three tag-only selectors h1, h2, h3 in their
original relative order (their specificities are equal), and whose
declarations are margin = Keyword auto and color = Color 204 0 0 255. -/
theorem C3_round_trip :
    css.parse "h1, h2, h3 \x7b margin: auto; color: #cc0000; \x7d" =
      .ok ⟨[⟨[.Simple ⟨some "h1", none, []⟩, .Simple ⟨some "h2", none, []⟩,
      .Simple ⟨some "h3", none, []⟩],
     [⟨"margin", .Keyword "auto"⟩, ⟨"color", .ColorValue ⟨204, 0, 0, 255⟩⟩]⟩]⟩ := by
  have htl : "h1, h2, h3 \x7b margin: auto; color: #cc0000; \x7d".toList = ['h','1',',',' ','h','2',',',' ','h','3',' ','{',' ','m','a','r','g','i','n',':',' ','a','u','t','o',';',' ','c','o','l','o','r',':',' ','#','c','c','0','0','0','0',';',' ','}'] := rfl
  have hlen : "h1, h2, h3 \x7b margin: auto; color: #cc0000; \x7d".length = 44 := rfl
  have hrule : css.parse_rule ['h','1',',',' ','h','2',',',' ','h','3',' ','{',' ','m','a','r','g','i','n',':',' ','a','u','t','o',';',' ','c','o','l','o','r',':',' ','#','c','c','0','0','0','0',';',' ','}'] 45 0 = .ok (⟨[.Simple ⟨some "h1", none, []⟩, .Simple ⟨some "h2", none, []⟩,
      .Simple ⟨some "h3", none, []⟩],
     [⟨"margin", .Keyword "auto"⟩, ⟨"color", .ColorValue ⟨204, 0, 0, 255⟩⟩]⟩, 44) := by decide
  have hloop2 : css.parse_rules_loop ['h','1',',',' ','h','2',',',' ','h','3',' ','{',' ','m','a','r','g','i','n',':',' ','a','u','t','o',';',' ','c','o','l','o','r',':',' ','#','c','c','0','0','0','0',';',' ','}'] 44 44 [⟨[.Simple ⟨some "h1", none, []⟩, .Simple ⟨some "h2", none, []⟩,
      .Simple ⟨some "h3", none, []⟩],
     [⟨"margin", .Keyword "auto"⟩, ⟨"color", .ColorValue ⟨204, 0, 0, 255⟩⟩]⟩] = .ok ([⟨[.Simple ⟨some "h1", none, []⟩, .Simple ⟨some "h2", none, []⟩,
      .Simple ⟨some "h3", none, []⟩],
     [⟨"margin", .Keyword "auto"⟩, ⟨"color", .ColorValue ⟨204, 0, 0, 255⟩⟩]⟩], 44) := by decide
  have hws0 : css.consume_whitespace ['h','1',',',' ','h','2',',',' ','h','3',' ','{',' ','m','a','r','g','i','n',':',' ','a','u','t','o',';',' ','c','o','l','o','r',':',' ','#','c','c','0','0','0','0',';',' ','}'] 0 = 0 := by decide
  have heof0 : css.eof ['h','1',',',' ','h','2',',',' ','h','3',' ','{',' ','m','a','r','g','i','n',':',' ','a','u','t','o',';',' ','c','o','l','o','r',':',' ','#','c','c','0','0','0','0',';',' ','}'] 0 = false := by decide
  have hloop1 : css.parse_rules_loop ['h','1',',',' ','h','2',',',' ','h','3',' ','{',' ','m','a','r','g','i','n',':',' ','a','u','t','o',';',' ','c','o','l','o','r',':',' ','#','c','c','0','0','0','0',';',' ','}'] 45 0 [] = .ok ([⟨[.Simple ⟨some "h1", none, []⟩, .Simple ⟨some "h2", none, []⟩,
      .Simple ⟨some "h3", none, []⟩],
     [⟨"margin", .Keyword "auto"⟩, ⟨"color", .ColorValue ⟨204, 0, 0, 255⟩⟩]⟩], 44) := by
    unfold css.parse_rules_loop
    rw [hws0]
    simp only [heof0, Bool.false_eq_true, reduceIte, hrule, List.nil_append]
    exact hloop2
  simp only [css.parse, htl, hlen, Nat.reduceAdd, hloop1]

namespace css

/-- A successful one-character lookahead splits the remaining input. -/
theorem getElem?_drop_cons {l : List Char} {n : Nat} {c : Char} (h : l[n]? = some c) :
    l.drop n = c :: l.drop (n + 1) := by
  obtain ⟨hlt, hc⟩ := List.getElem?_eq_some.mp h
  rw [List.drop_eq_getElem_cons hlt, hc]

/-- A successful one-character lookahead bounds the position. -/
theorem getElem?_lt_length {l : List Char} {n : Nat} {c : Char} (h : l[n]? = some c) :
    n < l.length :=
  (List.getElem?_eq_some.mp h).1

/-- An identifier run starting on a non-identifier character is empty. -/
theorem parse_identifier_eq_nil {input : List Char} {pos : Nat} {c : Char}
    (h : input[pos]? = some c) (hc : valid_identifier_char c = false) :
    parse_identifier input pos = ("", pos) := by
  unfold parse_identifier consume_while
  rw [getElem?_drop_cons h]
  unfold consume_while_go
  rw [hc]
  simp

end css

/-- C5 counterexample: the next character of the input is an exclamation
mark, which starts neither a digit, a hash, nor a valid identifier, yet
`parse_value` does not fail: it returns the empty keyword without consuming
anything.  This refutes the claim that such inputs fail with EmptyValue. -/
theorem C5_counterexample :
    css.valid_identifier_char '!' = false ∧ ¬('0' ≤ '!' ∧ '!' ≤ '9') ∧ '!' ≠ '#' ∧
    css.parse_value ['!'] 0 = .ok (.Keyword "", 0) := by
  refine ⟨by decide, by decide, by decide, by decide⟩

/-- C5 amended: `parse_value` dispatches on the next character — a digit
gives `parse_length`, a hash gives `parse_color`, and anything else gives
Keyword of the identifier run, which on a character that starts no identifier
is the empty keyword at the unchanged position; it never fails on any input
that still has a next character. -/
theorem C5_amended (input : List Char) (pos : Nat) (c : Char)
    (h : input[pos]? = some c) :
    (('0' ≤ c ∧ c ≤ '9') → css.parse_value input pos = css.parse_length input pos) ∧
    (¬('0' ≤ c ∧ c ≤ '9') → c = '#' → css.parse_value input pos = css.parse_color input pos) ∧
    (¬('0' ≤ c ∧ c ≤ '9') → c ≠ '#' →
      css.parse_value input pos =
        .ok (.Keyword (css.parse_identifier input pos).1, (css.parse_identifier input pos).2)) ∧
    (¬('0' ≤ c ∧ c ≤ '9') → c ≠ '#' → css.valid_identifier_char c = false →
      css.parse_value input pos = .ok (.Keyword "", pos)) := by
  refine ⟨fun hd => ?_, fun hd hh => ?_, fun hd hh => ?_, fun hd hh hv => ?_⟩
  · simp [css.parse_value, css.next_char, h, hd, Except.instMonad, Except.bind]
  · simp [css.parse_value, css.next_char, h, hd, hh, Except.instMonad, Except.bind]
  · rcases hpi : css.parse_identifier input pos with ⟨s, p⟩
    simp [css.parse_value, css.next_char, h, hd, hh, hpi, Except.instMonad, Except.bind]
  · have hpi := css.parse_identifier_eq_nil h hv
    simp [css.parse_value, css.next_char, h, hd, hh, hpi, Except.instMonad, Except.bind]

/-- C5 witness: the amended theorem applied to the concrete input of the
counterexample. -/
theorem C5_amended_witness : css.parse_value ['!'] 0 = .ok (.Keyword "", 0) :=
  (C5_amended ['!'] 0 '!' rfl).2.2.2 (by decide) (by decide) (by decide)

namespace css

/-- A hexadecimal digit's value is at most 15. -/
theorem to_digit16_le {c : Char} {d : Nat} (h : to_digit16 c = some d) : d ≤ 15 := by
  unfold to_digit16 at h
  split_ifs at h with h1 h2 h3 <;> simp_all <;> omega

/-- The digit loop of the hex conversion never exceeds the `u8` bound. -/
theorem hex_digits_u8_le :
    ∀ (s : List Char) (acc n : Nat), acc ≤ 255 → hex_digits_u8 s acc = some n → n ≤ 255 := by
  intro s
  induction s with
  | nil =>
    intro acc n hacc h
    unfold hex_digits_u8 at h
    cases h
    exact hacc
  | cons c rest ih =>
    intro acc n hacc h
    unfold hex_digits_u8 at h
    rcases hd : to_digit16 c with _ | d <;> rw [hd] at h
    · simp at h
    · by_cases hle : 16 * acc + d ≤ 255
      · simp only [hle, if_true] at h
        exact ih _ _ hle h
      · simp [hle] at h

end css

namespace css

/-- Two hexadecimal digits convert to sixteen times the first plus the second. -/
theorem hex_digits_u8_pair {c1 c2 : Char} {d1 d2 : Nat}
    (hd1 : to_digit16 c1 = some d1) (hd2 : to_digit16 c2 = some d2) :
    hex_digits_u8 [c1, c2] 0 = some (16 * d1 + d2) := by
  have hb1 := to_digit16_le hd1
  have hb2 := to_digit16_le hd2
  have h1 : 16 * 0 + d1 ≤ 255 := by omega
  have h2 : 16 * (16 * 0 + d1) + d2 ≤ 255 := by omega
  simp [hex_digits_u8, hd1, hd2, h1, h2]
  omega

/-- A single hexadecimal digit converts to its own value. -/
theorem hex_digits_u8_single {c : Char} {d : Nat} (hd : to_digit16 c = some d) :
    hex_digits_u8 [c] 0 = some d := by
  have hb := to_digit16_le hd
  have h1 : 16 * 0 + d ≤ 255 := by omega
  simp [hex_digits_u8, hd, h1]
  omega

/-- The digit loop fails as soon as its first character is not a digit. -/
theorem hex_digits_u8_head_none {c : Char} {rest : List Char} {acc : Nat}
    (hc : to_digit16 c = none) : hex_digits_u8 (c :: rest) acc = none := by
  unfold hex_digits_u8
  rw [hc]

/-- The two-character digit loop fails when the second character is not a digit. -/
theorem hex_digits_u8_snd_none {c1 c2 : Char} {acc : Nat}
    (hc2 : to_digit16 c2 = none) : hex_digits_u8 [c1, c2] acc = none := by
  rcases hd : to_digit16 c1 with _ | d
  · exact hex_digits_u8_head_none hd
  · simp [hex_digits_u8, hd, hc2]

/-- On a two-character string the Rust conversion strips a leading plus and
otherwise runs the digit loop on both characters. -/
theorem from_str_radix16_u8_pair (c1 c2 : Char) :
    from_str_radix16_u8 [c1, c2] =
      if c1 = '+' then hex_digits_u8 [c2] 0 else hex_digits_u8 [c1, c2] 0 := by
  unfold from_str_radix16_u8
  simp

end css

/-- C6 counterexample: the two consumed characters are a plus sign and the
hex digit f; the plus sign is not a hexadecimal digit, yet `parse_hex_pair`
does not fail with InvalidColor — Rust's base-16 conversion accepts a leading
plus, so the call succeeds and returns 15.  This refutes the claimed
if-and-only-if failure condition. -/
theorem C6_counterexample :
    css.to_digit16 '+' = none ∧ css.parse_hex_pair ['+', 'f'] 0 = .ok (15, 2) := by
  refine ⟨by decide, by decide⟩

/-- C6 amended: `parse_hex_pair` consumes exactly two characters and returns
a base-16 value in the range 0-255; on two hex digits the value is sixteen
times the first digit plus the second; a plus sign followed by one hex digit
also succeeds with that digit's value (the leading plus is accepted by the
Rust integer conversion); it fails with InvalidColor exactly when the first
character is neither a hex digit nor a plus sign, or the second character is
not a hex digit. -/
theorem C6_amended (input : List Char) (pos : Nat) (c1 c2 : Char)
    (h1 : input[pos]? = some c1) (h2 : input[pos + 1]? = some c2) :
    (∀ d1 d2, css.to_digit16 c1 = some d1 → css.to_digit16 c2 = some d2 →
      css.parse_hex_pair input pos = .ok (16 * d1 + d2, pos + 2)) ∧
    (∀ d2, c1 = '+' → css.to_digit16 c2 = some d2 →
      css.parse_hex_pair input pos = .ok (d2, pos + 2)) ∧
    ((css.to_digit16 c1 = none ∧ c1 ≠ '+') ∨ css.to_digit16 c2 = none →
      css.parse_hex_pair input pos = .error .invalidColor) ∧
    (∀ n pos', css.parse_hex_pair input pos = .ok (n, pos') →
      n ≤ 255 ∧ pos' = pos + 2) := by
  have hlt : pos + 2 ≤ input.length := css.getElem?_lt_length h2
  have hslice : (input.drop pos).take 2 = [c1, c2] := by
    rw [css.getElem?_drop_cons h1, css.getElem?_drop_cons h2]
    simp
  have hmain : css.parse_hex_pair input pos =
      (match css.from_str_radix16_u8 [c1, c2] with
        | some n => .ok (n, pos + 2)
        | none => .error .invalidColor) := by
    unfold css.parse_hex_pair
    rw [if_pos hlt, hslice]
  have hfs : css.from_str_radix16_u8 [c1, c2] =
      if c1 = '+' then css.hex_digits_u8 [c2] 0 else css.hex_digits_u8 [c1, c2] 0 :=
    css.from_str_radix16_u8_pair c1 c2
  refine ⟨fun d1 d2 hd1 hd2 => ?_, fun d2 hp hd2 => ?_, fun herr => ?_, fun n pos' hok => ?_⟩
  · have hne : c1 ≠ '+' := by
      intro e
      rw [e] at hd1
      rw [show css.to_digit16 '+' = none by decide] at hd1
      cases hd1
    rw [hmain, hfs, if_neg hne, css.hex_digits_u8_pair hd1 hd2]
  · rw [hmain, hfs, if_pos hp, css.hex_digits_u8_single hd2]
  · rcases herr with ⟨hc1, hne⟩ | hc2
    · rw [hmain, hfs, if_neg hne, css.hex_digits_u8_head_none hc1]
    · by_cases hp : c1 = '+'
      · rw [hmain, hfs, if_pos hp, css.hex_digits_u8_head_none hc2]
      · rw [hmain, hfs, if_neg hp, css.hex_digits_u8_snd_none hc2]
  · rw [hmain] at hok
    rcases hv : css.from_str_radix16_u8 [c1, c2] with _ | m
    · rw [hv] at hok
      cases hok
    · rw [hv] at hok
      have hm : m ≤ 255 := by
        rw [hfs] at hv
        split_ifs at hv with hp
        · exact css.hex_digits_u8_le _ _ _ (by omega) hv
        · exact css.hex_digits_u8_le _ _ _ (by omega) hv
      cases hok
      exact ⟨hm, rfl⟩

/-- C6 witness: the amended theorem applied to the hex pair ab, whose value
is 171. -/
theorem C6_amended_witness : css.parse_hex_pair ['a', 'b'] 0 = .ok (171, 2) :=
  (C6_amended ['a', 'b'] 0 'a' 'b' rfl rfl).1 10 11 (by decide) (by decide)

/-- C7: for every styled node and property names, `lookup` returns the value
mapped under the first name when present, otherwise the value mapped under
the fallback name when present, otherwise the given default — and it always
returns a value (it cannot fail). -/
theorem C7_lookup (sn : style.StyledNode) (name fb : String) (default : css.Value) :
    (∀ v, sn.value name = some v → sn.lookup name fb default = v) ∧
    (sn.value name = none → ∀ v, sn.value fb = some v → sn.lookup name fb default = v) ∧
    (sn.value name = none → sn.value fb = none → sn.lookup name fb default = default) := by
  refine ⟨fun v hv => ?_, fun hn v hv => ?_, fun hn hf => ?_⟩ <;>
    simp [style.StyledNode.lookup, *]

/-- C7 witness: on a node mapping only `color` to the blue keyword, looking
up `background-color` with fallback `color` returns the blue keyword. -/
theorem C7_lookup_witness :
    (style.StyledNode.mk (.mk (.Text "t") []) [("color", .Keyword "blue")] []).lookup
      "background-color" "color" (.Keyword "black") = .Keyword "blue" :=
  (C7_lookup (style.StyledNode.mk (.mk (.Text "t") []) [("color", .Keyword "blue")] [])
    "background-color" "color" (.Keyword "black")).2.1 rfl (.Keyword "blue") rfl

namespace css

/-- Inversion for a successful `Except` bind. -/
theorem bind_ok_iff {ε α β : Type} {x : Except ε α} {f : α → Except ε β} {b : β} :
    x >>= f = .ok b ↔ ∃ a, x = .ok a ∧ f a = .ok b := by
  cases x <;> simp [Bind.bind, Except.bind]

/-- Inversion for a failing `Except` bind. -/
theorem bind_error_iff {ε α β : Type} {x : Except ε α} {f : α → Except ε β} {e : ε} :
    x >>= f = .error e ↔ x = .error e ∨ ∃ a, x = .ok a ∧ f a = .error e := by
  cases x <;> simp [Bind.bind, Except.bind]

/-- The scanning loop never moves the cursor backwards. -/
theorem consume_while_go_ge (test : Char → Bool) :
    ∀ (l : List Char) (pos : Nat), pos ≤ (consume_while_go test l pos).2 := by
  intro l
  induction l with
  | nil => intro pos; simp [consume_while_go]
  | cons c rest ih =>
    intro pos
    rcases hr : consume_while_go test rest (pos + 1) with ⟨cs, p2⟩
    have := ih (pos + 1)
    rw [hr] at this
    by_cases hc : test c <;> simp [consume_while_go, hc, hr]
    omega

/-- `consume_while` never moves the cursor backwards. -/
theorem consume_while_ge (test : Char → Bool) (input : List Char) (pos : Nat) :
    pos ≤ (consume_while test input pos).2 := by
  unfold consume_while
  exact consume_while_go_ge test (input.drop pos) pos

/-- `consume_whitespace` never moves the cursor backwards. -/
theorem consume_whitespace_ge (input : List Char) (pos : Nat) :
    pos ≤ consume_whitespace input pos :=
  consume_while_ge Char.isWhitespace input pos

/-- `parse_identifier` never moves the cursor backwards. -/
theorem parse_identifier_ge (input : List Char) (pos : Nat) :
    pos ≤ (parse_identifier input pos).2 := by
  rcases hw : consume_while valid_identifier_char input pos with ⟨cs, p2⟩
  have := consume_while_ge valid_identifier_char input pos
  rw [hw] at this
  simp [parse_identifier, hw]
  exact this

/-- A successful `expect_char` advances the cursor by exactly one. -/
theorem expect_char_ok {c : Char} {input : List Char} {pos pos' : Nat}
    (h : expect_char c input pos = .ok pos') : pos' = pos + 1 := by
  unfold expect_char consume_char next_char at h
  rcases hg : input[pos]? with _ | c' <;> rw [hg] at h
  · cases h
  · by_cases he : c' = c <;> simp [he] at h
    omega

/-- A successful `parse_hex_pair` advances the cursor by exactly two. -/
theorem parse_hex_pair_ok {input : List Char} {pos : Nat} {n pos' : Nat}
    (h : parse_hex_pair input pos = .ok (n, pos')) : pos' = pos + 2 := by
  unfold parse_hex_pair at h
  split_ifs at h with hlt
  · split at h
    · cases h
      rfl
    · cases h

/-- A successful `parse_color` never moves the cursor backwards. -/
theorem parse_color_ge {input : List Char} {pos : Nat} {v : Value} {pos' : Nat}
    (h : parse_color input pos = .ok (v, pos')) : pos ≤ pos' := by
  unfold parse_color at h
  rw [bind_ok_iff] at h
  obtain ⟨p1, he, h⟩ := h
  rw [bind_ok_iff] at h
  obtain ⟨⟨r, p2⟩, hr, h⟩ := h
  rw [bind_ok_iff] at h
  obtain ⟨⟨g, p3⟩, hg, h⟩ := h
  rw [bind_ok_iff] at h
  obtain ⟨⟨b, p4⟩, hb, h⟩ := h
  cases h
  have e1 := expect_char_ok he
  have e2 := parse_hex_pair_ok hr
  have e3 := parse_hex_pair_ok hg
  have e4 := parse_hex_pair_ok hb
  omega

/-- A successful `parse_unit` never moves the cursor backwards. -/
theorem parse_unit_ge {input : List Char} {pos : Nat} {u : Unit} {pos' : Nat}
    (h : parse_unit input pos = .ok (u, pos')) : pos ≤ pos' := by
  unfold parse_unit at h
  rcases hi : parse_identifier input pos with ⟨s, p2⟩
  have := parse_identifier_ge input pos
  rw [hi] at this h
  simp only [] at h this
  split_ifs at h with hpx
  · cases h
    exact this

/-- A successful `parse_float` never moves the cursor backwards. -/
theorem parse_float_ge {input : List Char} {pos : Nat} {q : ℚ} {pos' : Nat}
    (h : parse_float input pos = .ok (q, pos')) : pos ≤ pos' := by
  unfold parse_float at h
  rcases hw : consume_while (fun c => ('0' ≤ c && c ≤ '9') || c = '.') input pos with ⟨cs, p2⟩
  have := consume_while_ge (fun c => ('0' ≤ c && c ≤ '9') || c = '.') input pos
  rw [hw] at this h
  simp only [] at h this
  rcases hp : parse_f32 cs with _ | m <;> rw [hp] at h
  · cases h
  · cases h
    exact this

/-- A successful `parse_length` never moves the cursor backwards. -/
theorem parse_length_ge {input : List Char} {pos : Nat} {v : Value} {pos' : Nat}
    (h : parse_length input pos = .ok (v, pos')) : pos ≤ pos' := by
  unfold parse_length at h
  rw [bind_ok_iff] at h
  obtain ⟨⟨q, p1⟩, hf, h⟩ := h
  rw [bind_ok_iff] at h
  obtain ⟨⟨u, p2⟩, hu, h⟩ := h
  cases h
  exact le_trans (parse_float_ge hf) (parse_unit_ge hu)

/-- A successful `parse_value` never moves the cursor backwards. -/
theorem parse_value_ge {input : List Char} {pos : Nat} {v : Value} {pos' : Nat}
    (h : parse_value input pos = .ok (v, pos')) : pos ≤ pos' := by
  unfold parse_value at h
  rw [bind_ok_iff] at h
  obtain ⟨c, hc, h⟩ := h
  split_ifs at h with hd hh
  · exact parse_length_ge h
  · exact parse_color_ge h
  · rcases hi : parse_identifier input pos with ⟨s, p2⟩
    have := parse_identifier_ge input pos
    rw [hi] at this h
    cases h
    exact this

/-- A successful `parse_declaration` strictly advances the cursor. -/
theorem parse_declaration_gt {input : List Char} {pos : Nat} {d : Declaration} {pos' : Nat}
    (h : parse_declaration input pos = .ok (d, pos')) : pos < pos' := by
  unfold parse_declaration at h
  rcases hi : parse_identifier input pos with ⟨name, p1⟩
  have hig := parse_identifier_ge input pos
  rw [hi] at hig h
  simp only [] at h
  rw [bind_ok_iff] at h
  obtain ⟨p3, hcolon, h⟩ := h
  rw [bind_ok_iff] at h
  obtain ⟨⟨v, p5⟩, hv, h⟩ := h
  simp only [] at h
  rw [bind_ok_iff] at h
  obtain ⟨p7, hsemi, h⟩ := h
  cases h
  have h1 := consume_whitespace_ge input p1
  have h2 := expect_char_ok hcolon
  have h3 := consume_whitespace_ge input p3
  have h4 := parse_value_ge hv
  have h5 := consume_whitespace_ge input p5
  have h6 := expect_char_ok hsemi
  omega

end css

namespace css

/-- `next_char` can only fail with an out-of-bounds read. -/
theorem next_char_no_fuel {input : List Char} {pos : Nat} {e : ParseError}
    (h : next_char input pos = .error e) : e ≠ .fuelOut := by
  unfold next_char at h
  split at h
  · cases h
  · cases h
    decide

/-- `consume_char` never reports fuel exhaustion. -/
theorem consume_char_no_fuel {input : List Char} {pos : Nat} {e : ParseError}
    (h : consume_char input pos = .error e) : e ≠ .fuelOut := by
  unfold consume_char at h
  split at h
  · cases h
  · cases h
    next hn => exact next_char_no_fuel hn

/-- `expect_char` never reports fuel exhaustion. -/
theorem expect_char_no_fuel {c : Char} {input : List Char} {pos : Nat} {e : ParseError}
    (h : expect_char c input pos = .error e) : e ≠ .fuelOut := by
  unfold expect_char at h
  split at h
  · split_ifs at h
    cases h
    decide
  · cases h
    next hn => exact consume_char_no_fuel hn

/-- `parse_hex_pair` never reports fuel exhaustion. -/
theorem parse_hex_pair_no_fuel {input : List Char} {pos : Nat} {e : ParseError}
    (h : parse_hex_pair input pos = .error e) : e ≠ .fuelOut := by
  unfold parse_hex_pair at h
  split_ifs at h
  · split at h
    · cases h
    · cases h
      decide
  · cases h
    decide

/-- `parse_color` never reports fuel exhaustion. -/
theorem parse_color_no_fuel {input : List Char} {pos : Nat} {e : ParseError}
    (h : parse_color input pos = .error e) : e ≠ .fuelOut := by
  unfold parse_color at h
  rw [bind_error_iff] at h
  rcases h with h | ⟨p1, _, h⟩
  · exact expect_char_no_fuel h
  rw [bind_error_iff] at h
  rcases h with h | ⟨⟨r, p2⟩, _, h⟩
  · exact parse_hex_pair_no_fuel h
  rw [bind_error_iff] at h
  rcases h with h | ⟨⟨g, p3⟩, _, h⟩
  · exact parse_hex_pair_no_fuel h
  rw [bind_error_iff] at h
  rcases h with h | ⟨⟨b, p4⟩, _, h⟩
  · exact parse_hex_pair_no_fuel h
  cases h

/-- `parse_unit` never reports fuel exhaustion. -/
theorem parse_unit_no_fuel {input : List Char} {pos : Nat} {e : ParseError}
    (h : parse_unit input pos = .error e) : e ≠ .fuelOut := by
  unfold parse_unit at h
  rcases hi : parse_identifier input pos with ⟨s, p2⟩
  rw [hi] at h
  simp only [] at h
  split_ifs at h
  cases h
  decide

/-- `parse_float` never reports fuel exhaustion. -/
theorem parse_float_no_fuel {input : List Char} {pos : Nat} {e : ParseError}
    (h : parse_float input pos = .error e) : e ≠ .fuelOut := by
  unfold parse_float at h
  rcases hw : consume_while (fun c => ('0' ≤ c && c ≤ '9') || c = '.') input pos with ⟨cs, p2⟩
  rw [hw] at h
  simp only [] at h
  split at h
  · cases h
  · cases h
    decide

/-- `parse_length` never reports fuel exhaustion. -/
theorem parse_length_no_fuel {input : List Char} {pos : Nat} {e : ParseError}
    (h : parse_length input pos = .error e) : e ≠ .fuelOut := by
  unfold parse_length at h
  rw [bind_error_iff] at h
  rcases h with h | ⟨⟨q, p1⟩, _, h⟩
  · exact parse_float_no_fuel h
  rw [bind_error_iff] at h
  rcases h with h | ⟨⟨u, p2⟩, _, h⟩
  · exact parse_unit_no_fuel h
  cases h

/-- `parse_value` never reports fuel exhaustion. -/
theorem parse_value_no_fuel {input : List Char} {pos : Nat} {e : ParseError}
    (h : parse_value input pos = .error e) : e ≠ .fuelOut := by
  unfold parse_value at h
  rw [bind_error_iff] at h
  rcases h with h | ⟨c, _, h⟩
  · exact next_char_no_fuel h
  split_ifs at h
  · exact parse_length_no_fuel h
  · exact parse_color_no_fuel h

/-- `parse_declaration` never reports fuel exhaustion. -/
theorem parse_declaration_no_fuel {input : List Char} {pos : Nat} {e : ParseError}
    (h : parse_declaration input pos = .error e) : e ≠ .fuelOut := by
  unfold parse_declaration at h
  rcases hi : parse_identifier input pos with ⟨name, p1⟩
  rw [hi] at h
  simp only [] at h
  rw [bind_error_iff] at h
  rcases h with h | ⟨p3, _, h⟩
  · exact expect_char_no_fuel h
  rw [bind_error_iff] at h
  rcases h with h | ⟨⟨v, p5⟩, _, h⟩
  · exact parse_value_no_fuel h
  simp only [] at h
  rw [bind_error_iff] at h
  rcases h with h | ⟨p7, _, h⟩
  · exact expect_char_no_fuel h
  cases h

end css

namespace css

/-- With fuel exceeding the remaining input length, the declaration loop
never runs out of fuel: every iteration that recurses first parses one
declaration, which strictly advances the cursor. -/
theorem parse_declarations_loop_no_fuel :
    ∀ (fuel : Nat) (input : List Char) (pos : Nat) (acc : List Declaration),
      input.length - pos < fuel →
      parse_declarations_loop input fuel pos acc ≠ .error .fuelOut := by
  intro fuel
  induction fuel with
  | zero =>
    intro input pos acc h
    omega
  | succ fuel ih =>
    intro input pos acc hf
    unfold parse_declarations_loop
    have hws := consume_whitespace_ge input pos
    rcases hg : input[consume_whitespace input pos]? with _ | c
    · simp [hg]
    · have hlt := getElem?_lt_length hg
      by_cases hc : c = '}'
      · simp [hg, hc]
      · rcases hd : parse_declaration input (consume_whitespace input pos) with e | ⟨d, pos2⟩
        · simp [hg, hc, hd]
          exact parse_declaration_no_fuel hd
        · have hgt := parse_declaration_gt hd
          simp [hg, hc, hd]
          exact ih input pos2 (acc ++ [d]) (by omega)

end css

/-- C8: the declaration-block parser terminates on every input — with any
fuel budget exceeding the remaining input length it never reports fuel
exhaustion, so it always returns a declaration sequence or fails — and on the
concrete unterminated block the failure is an out-of-bounds read past the end
of the input. -/
theorem C8_declarations_terminate :
    (∀ (input : List Char) (fuel pos : Nat), input.length - pos < fuel →
      css.parse_declarations input fuel pos ≠ .error .fuelOut) ∧
    css.parse_declarations "\x7b margin: auto;".toList 100 0 = .error .outOfBounds := by
  constructor
  · intro input fuel pos hf
    unfold css.parse_declarations
    rcases he : css.expect_char '{' input pos with e | p1
    · simp only [Bind.bind, Except.bind]
      intro heq
      injection heq with heq
      exact css.expect_char_no_fuel he heq
    · have hp1 := css.expect_char_ok he
      simp only [Bind.bind, Except.bind]
      exact css.parse_declarations_loop_no_fuel fuel input p1 [] (by omega)
  · decide

/-- C8 witness: the termination bound applied to a concrete one-character
block with fuel two. -/
theorem C8_declarations_terminate_witness :
    css.parse_declarations ['{'] 2 0 ≠ .error .fuelOut :=
  C8_declarations_terminate.1 ['{'] 2 0 (by decide)

namespace css

/-- The lexicographic specificity order is reflexive. -/
theorem specLe_refl (a : Specificity) : specLe a a := by
  unfold specLe
  omega

/-- The lexicographic specificity order is total. -/
theorem specLe_of_not {a b : Specificity} (h : ¬ specLe a b) : specLe b a := by
  unfold specLe at *
  omega

/-- Incomparability downward means the triples differ. -/
theorem ne_of_not_specLe {a b : Specificity} (h : ¬ specLe a b) : b ≠ a := by
  intro e
  subst e
  exact h (specLe_refl _)

/-- The lexicographic specificity order is transitive. -/
theorem specLe_trans {a b c : Specificity} (h1 : specLe a b) (h2 : specLe b c) :
    specLe a c := by
  unfold specLe at *
  omega

/-- The boolean selector comparison decides the specificity order. -/
theorem selLe_true_iff {a b : Selector} :
    selLe a b = true ↔ specLe a.specificity b.specificity := by
  simp [selLe]

/-- Membership in an insertion. -/
theorem insertLe_mem {α : Type} (le : α → α → Bool) (x z : α) :
    ∀ l : List α, z ∈ insertLe le x l ↔ z = x ∨ z ∈ l := by
  intro l
  induction l with
  | nil => simp [insertLe]
  | cons y ys ih =>
    by_cases h : le x y <;> simp [insertLe, h, ih]
    tauto

/-- Inserting into a list sorted by specificity keeps it sorted. -/
theorem insertLe_sel_pairwise (x : Selector) (l : List Selector)
    (hl : l.Pairwise (fun a b => specLe a.specificity b.specificity)) :
    (insertLe selLe x l).Pairwise (fun a b => specLe a.specificity b.specificity) := by
  induction l with
  | nil => simp [insertLe]
  | cons y ys ih =>
    rcases List.pairwise_cons.mp hl with ⟨hy, hys⟩
    by_cases h : selLe x y
    · have hxy := selLe_true_iff.mp h
      simp only [insertLe, if_pos h]
      refine List.pairwise_cons.mpr ⟨?_, hl⟩
      intro z hz
      rcases List.mem_cons.mp hz with rfl | hz'
      · exact hxy
      · exact specLe_trans hxy (hy z hz')
    · have hyx : specLe y.specificity x.specificity :=
        specLe_of_not (fun hc => h (selLe_true_iff.mpr hc))
      simp only [insertLe, if_neg h]
      refine List.pairwise_cons.mpr ⟨?_, ih hys⟩
      intro z hz
      rcases (insertLe_mem selLe x z ys).mp hz with rfl | hz'
      · exact hyx
      · exact hy z hz'

/-- Sorting by specificity yields a list sorted ascending by specificity. -/
theorem sortLe_sel_pairwise (l : List Selector) :
    (sortLe selLe l).Pairwise (fun a b => specLe a.specificity b.specificity) := by
  induction l with
  | nil => simp [sortLe]
  | cons x xs ih => exact insertLe_sel_pairwise x (sortLe selLe xs) ih

/-- Inserting an element commutes with filtering on one specificity value:
the skipped prefix consists of strictly smaller keys, so an inserted element
lands in front of all elements of its own specificity. -/
theorem insertLe_sel_filter (x : Selector) (k : Specificity) :
    ∀ l : List Selector,
      (insertLe selLe x l).filter (fun s => decide (s.specificity = k)) =
        if x.specificity = k then
          x :: l.filter (fun s => decide (s.specificity = k))
        else l.filter (fun s => decide (s.specificity = k)) := by
  intro l
  induction l with
  | nil => by_cases hx : x.specificity = k <;> simp [insertLe, hx]
  | cons y ys ih =>
    by_cases h : selLe x y
    · simp only [insertLe, if_pos h]
      by_cases hx : x.specificity = k <;> simp [List.filter_cons, hx]
    · have hne : y.specificity ≠ x.specificity :=
        ne_of_not_specLe (fun hc => h (selLe_true_iff.mpr hc))
      simp only [insertLe, if_neg h]
      by_cases hx : x.specificity = k
      · have hy : ¬ (y.specificity = k) := by
          rw [← hx] at *
          exact hne
        simp [List.filter_cons, hy, ih, hx]
      · by_cases hyk : y.specificity = k <;> simp [List.filter_cons, hyk, ih, hx]

/-- The stable sort preserves, for every specificity value, the subsequence
of selectors with that specificity. -/
theorem sortLe_sel_filter (k : Specificity) :
    ∀ l : List Selector,
      (sortLe selLe l).filter (fun s => decide (s.specificity = k)) =
        l.filter (fun s => decide (s.specificity = k)) := by
  intro l
  induction l with
  | nil => simp [sortLe]
  | cons x xs ih =>
    simp only [sortLe]
    rw [insertLe_sel_filter x k (sortLe selLe xs)]
    by_cases hx : x.specificity = k <;> simp [List.filter_cons, hx, ih]

/-- Insertion permutes consing. -/
theorem insertLe_perm {α : Type} (le : α → α → Bool) (x : α) :
    ∀ l : List α, (insertLe le x l).Perm (x :: l) := by
  intro l
  induction l with
  | nil => simp [insertLe]
  | cons y ys ih =>
    by_cases h : le x y
    · simp [insertLe, h]
    · simp only [insertLe, if_neg h]
      exact (ih.cons y).trans (List.Perm.swap x y ys)

/-- The sort is a permutation. -/
theorem sortLe_perm {α : Type} (le : α → α → Bool) :
    ∀ l : List α, (sortLe le l).Perm l := by
  intro l
  induction l with
  | nil => simp [sortLe]
  | cons x xs ih => exact (insertLe_perm le x (sortLe le xs)).trans (ih.cons x)

end css

/-- C4: every successfully parsed selector list is sorted ascending by
specificity, and it is the stable sort of the selectors in source order: it
is a permutation of the source-order list in which, for every specificity
value, the selectors of that specificity appear in their original relative
order. -/
theorem C4_selectors_sorted_stable (input : List Char) (fuel pos : Nat)
    (sels orig : List css.Selector) (p p' : Nat)
    (hs : css.parse_selectors input fuel pos = .ok (sels, p))
    (ho : css.parse_selectors_loop input fuel pos [] = .ok (orig, p')) :
    sels.Pairwise (fun a b => css.specLe a.specificity b.specificity) ∧
    (∀ k : css.Specificity,
      sels.filter (fun s => decide (s.specificity = k)) =
        orig.filter (fun s => decide (s.specificity = k))) ∧
    sels.Perm orig := by
  unfold css.parse_selectors at hs
  rw [ho] at hs
  injection hs with hs
  cases hs
  exact ⟨css.sortLe_sel_pairwise orig, fun k => css.sortLe_sel_filter k orig,
    css.sortLe_perm css.selLe orig⟩

/-- C4 witness: the sortedness conjunct at the concrete selector list of
"p, .x" followed by a block opener. -/
theorem C4_selectors_sorted_stable_witness :
    ([css.Selector.Simple ⟨some "p", none, []⟩,
      css.Selector.Simple ⟨none, none, ["x"]⟩] : List css.Selector).Pairwise
      (fun a b => css.specLe a.specificity b.specificity) :=
  (C4_selectors_sorted_stable "p, .x \x7b".toList 50 0
    [css.Selector.Simple ⟨some "p", none, []⟩, css.Selector.Simple ⟨none, none, ["x"]⟩]
    [css.Selector.Simple ⟨some "p", none, []⟩, css.Selector.Simple ⟨none, none, ["x"]⟩]
    6 6 (by decide) (by decide)).1

namespace css

/-- The selector-list loop always returns a strictly longer list than the
accumulator it started from: it pushes one selector before its first exit
check. -/
theorem parse_selectors_loop_len :
    ∀ (fuel : Nat) (input : List Char) (pos : Nat) (acc l : List Selector) (p : Nat),
      parse_selectors_loop input fuel pos acc = .ok (l, p) → acc.length < l.length := by
  intro fuel
  induction fuel with
  | zero =>
    intro input pos acc l p h
    unfold parse_selectors_loop at h
    rcases hss : parse_simple_selector input (input.length + 1) pos with e | ⟨sel, pos1⟩ <;>
      rw [hss] at h
    · cases h
    · simp only [] at h
      rcases hg : input[consume_whitespace input pos1]? with _ | c <;> rw [hg] at h
      · cases h
      · by_cases hc : c = ','
        · simp [hc] at h
        · by_cases hb : c = '{'
          · simp [hc, hb] at h
            rcases h with ⟨h1, _⟩
            subst h1
            simp
          · simp [hc, hb] at h
  | succ fuel ih =>
    intro input pos acc l p h
    unfold parse_selectors_loop at h
    rcases hss : parse_simple_selector input (input.length + 1) pos with e | ⟨sel, pos1⟩ <;>
      rw [hss] at h
    · cases h
    · simp only [] at h
      rcases hg : input[consume_whitespace input pos1]? with _ | c <;> rw [hg] at h
      · cases h
      · by_cases hc : c = ','
        · simp only [hc, if_true] at h
          have := ih input (consume_whitespace input (consume_whitespace input pos1 + 1))
            (acc ++ [Selector.Simple sel]) l p h
          simp at this
          omega
        · by_cases hb : c = '{'
          · simp [hc, hb] at h
            rcases h with ⟨h1, _⟩
            subst h1
            simp
          · simp [hc, hb] at h

/-- A successfully parsed selector list is never empty. -/
theorem parse_selectors_ne_nil {input : List Char} {fuel pos : Nat}
    {sels : List Selector} {p : Nat}
    (h : parse_selectors input fuel pos = .ok (sels, p)) : sels ≠ [] := by
  unfold parse_selectors at h
  rcases hl : parse_selectors_loop input fuel pos [] with e | ⟨orig, p'⟩ <;> rw [hl] at h
  · cases h
  · injection h with h
    cases h
    have hlen := parse_selectors_loop_len fuel input pos [] orig _ hl
    have hperm := (sortLe_perm selLe orig).length_eq
    intro hnil
    rw [hnil] at hperm
    simp at hperm
    simp [← hperm] at hlen

/-- A successfully parsed rule has at least one selector. -/
theorem parse_rule_selectors_ne_nil {input : List Char} {fuel pos : Nat}
    {r : Rule} {p : Nat}
    (h : parse_rule input fuel pos = .ok (r, p)) : r.selectors ≠ [] := by
  unfold parse_rule at h
  rw [bind_ok_iff] at h
  obtain ⟨⟨selectors, pos1⟩, hsel, h⟩ := h
  rw [bind_ok_iff] at h
  obtain ⟨⟨declarations, pos2⟩, hdecl, h⟩ := h
  cases h
  exact parse_selectors_ne_nil hsel

/-- One unfolding of the rule loop with the whitespace position inlined. -/
theorem parse_rules_loop_eq (input : List Char) (fuel pos : Nat) (acc : List Rule) :
    parse_rules_loop input fuel pos acc =
      if eof input (consume_whitespace input pos) = true then
        .ok (acc, consume_whitespace input pos)
      else
        match parse_rule input fuel (consume_whitespace input pos) with
        | .error e => .error e
        | .ok (r, pos2) =>
          match fuel with
          | 0 => .error .fuelOut
          | fuel' + 1 => parse_rules_loop input fuel' pos2 (acc ++ [r]) := by
  conv_lhs => unfold parse_rules_loop

/-- Every rule accumulated by the rule loop, starting from an accumulator of
rules with nonempty selector lists, has a nonempty selector list. -/
theorem parse_rules_loop_nonempty :
    ∀ (fuel : Nat) (input : List Char) (pos : Nat) (acc rules : List Rule) (p : Nat),
      parse_rules_loop input fuel pos acc = .ok (rules, p) →
      (∀ r ∈ acc, r.selectors ≠ []) → ∀ r ∈ rules, r.selectors ≠ [] := by
  intro fuel
  induction fuel with
  | zero =>
    intro input pos acc rules p h hacc
    rw [parse_rules_loop_eq] at h
    split_ifs at h with he
    · cases h
      exact hacc
    · rcases hr : parse_rule input 0 (consume_whitespace input pos) with e | ⟨r0, pos2⟩ <;>
        rw [hr] at h
      · cases h
      · cases h
  | succ fuel ih =>
    intro input pos acc rules p h hacc
    rw [parse_rules_loop_eq] at h
    split_ifs at h with he
    · cases h
      exact hacc
    · rcases hr : parse_rule input (fuel + 1) (consume_whitespace input pos) with e | ⟨r0, pos2⟩ <;>
        rw [hr] at h
      · cases h
      · refine ih input pos2 (acc ++ [r0]) rules p h ?_
        intro r hr'
        rcases List.mem_append.mp hr' with hmem | hmem
        · exact hacc r hmem
        · rcases List.mem_singleton.mp hmem with rfl
          exact parse_rule_selectors_ne_nil hr

end css

/-- C9: every rule produced by a successful stylesheet parse contains at
least one selector — no parse ever returns a rule with an empty selector
list. -/
theorem C9_rules_nonempty (source : String) (sheet : css.Stylesheet)
    (h : css.parse source = .ok sheet) :
    ∀ r ∈ sheet.rules, r.selectors ≠ [] := by
  unfold css.parse at h
  rcases hl : css.parse_rules_loop source.toList (source.length + 1) 0 [] with e | ⟨rules, p⟩ <;>
    rw [hl] at h
  · cases h
  · injection h with h
    cases h
    exact css.parse_rules_loop_nonempty (source.length + 1) source.toList 0 [] rules p hl
      (by simp)

/-- C9 witness: the rule parsed from a one-rule stylesheet has a nonempty
selector list. -/
theorem C9_rules_nonempty_witness :
    (⟨[css.Selector.Simple ⟨some "p", none, []⟩], []⟩ : css.Rule).selectors ≠ [] :=
  C9_rules_nonempty "p\x7b\x7d" ⟨[⟨[css.Selector.Simple ⟨some "p", none, []⟩], []⟩]⟩
    (by decide) ⟨[css.Selector.Simple ⟨some "p", none, []⟩], []⟩ (by simp)
